import Mathlib

/-!
Verification development for the incidents-channel automation component
(`bot/cogs/moderation/incidents.py`).

The embedding models a chat message by the fields the component reads
(channel, author-is-bot flag, text content, pinned flag, reaction list),
and models every platform-effectful operation as a pure function that
returns the ordered list of platform calls it issues.  Configuration
values (channel id, role ids, signal emoji) are gathered in a `Config`
record passed explicitly.
-/

namespace Incidents

/-- Reaction entry on a message: the emoji string and the flag telling
whether the bot itself is among the reactors (`reaction.me`). -/
structure Reaction where
  emoji : String
  me : Bool
deriving DecidableEq, Repr

/-- The portion of a chat message observed by the component. -/
structure Message where
  id : Nat
  channelId : Nat
  authorBot : Bool
  content : String
  pinned : Bool
  reactions : List Reaction
deriving DecidableEq, Repr

/-- Process-wide configuration: the incidents channel id, the three
moderation-tier role ids, and the three signal emoji values. -/
structure Config where
  incidentsChannel : Nat
  moderatorsRole : Nat
  adminsRole : Nat
  ownersRole : Nat
  incidentActioned : String
  incidentUnactioned : String
  incidentInvestigating : String
deriving DecidableEq, Repr

/-- Recognized incident status signals (`class Signal(Enum)`). -/
inductive Signal where
  | ACTIONED
  | NOT_ACTIONED
  | INVESTIGATING
deriving DecidableEq, Repr

/-- Emoji value attached to each `Signal` member, resolved from
configuration (`Signal.ACTIONED = Emojis.incident_actioned`, ...). -/
def Signal.value (cfg : Config) : Signal → String
  | .ACTIONED => cfg.incidentActioned
  | .NOT_ACTIONED => cfg.incidentUnactioned
  | .INVESTIGATING => cfg.incidentInvestigating

/-- Enumeration order of `Signal` members, as iterated by
`for signal_emoji in Signal`. -/
def signalOrder : List Signal := [.ACTIONED, .NOT_ACTIONED, .INVESTIGATING]

/-- `ALLOWED_ROLES = \x7bRoles.moderators, Roles.admins, Roles.owners\x7d`. -/
def ALLOWED_ROLES (cfg : Config) : Finset Nat :=
  {cfg.moderatorsRole, cfg.adminsRole, cfg.ownersRole}

/-- `ALLOWED_EMOJI = \x7bsignal.value for signal in Signal\x7d`. -/
def ALLOWED_EMOJI (cfg : Config) : Finset String :=
  (signalOrder.map (Signal.value cfg)).toFinset

/-- Embedding of the single-character prefix test
`content.startswith` applied to the hash character: it holds exactly
when the first character of the content is the hash.  It is stated on
the character list because Lean's own `String.startsWith` is defined by
well-founded recursion that the kernel cannot evaluate on literals. -/
def starts_with_hash (s : String) : Bool :=
  s.data.head? == some ('#')

/-- `is_incident`: the message is in the incidents channel, its author is
not a bot, its content does not start with a hash, and it is not pinned. -/
def is_incident (cfg : Config) (message : Message) : Bool :=
  (message.channelId == cfg.incidentsChannel)
    && (!message.authorBot)
    && (!starts_with_hash message.content)
    && (!message.pinned)

/-- `own_reactions`: the set of emoji among the reactions on the message
for which the bot-own-identity flag `reaction.me` is set. -/
def own_reactions (message : Message) : Finset String :=
  ((message.reactions.filter (fun r => r.me)).map (fun r => r.emoji)).toFinset

/-- `has_signals`: no element of `ALLOWED_EMOJI` is missing from the
bot's own reactions on the message. -/
def has_signals (cfg : Config) (message : Message) : Bool :=
  decide (ALLOWED_EMOJI cfg \ own_reactions message = ∅)

/-- Platform calls issued by the component, in issue order.  Each call in
a trace is awaited to completion before the next one is issued. -/
inductive Event where
  | addReaction (messageId : Nat) (emoji : String)
  | sleep (seconds : Nat)
  | acquireEventLock
deriving DecidableEq, Repr

/-- Loop body of `add_signals`: iterate the signals with the
pre-computed set `existing_reacts`, skipping signals whose emoji is
already present and issuing one add-reaction call for each missing one. -/
def add_signals_loop (cfg : Config) (incident : Message)
    (existing_reacts : Finset String) : List Signal → List Event
  | [] => []
  | signal_emoji :: rest =>
    if signal_emoji.value cfg ∈ existing_reacts then
      add_signals_loop cfg incident existing_reacts rest
    else
      Event.addReaction incident.id (signal_emoji.value cfg)
        :: add_signals_loop cfg incident existing_reacts rest

/-- `add_signals`: compute `own_reactions` once, then walk the three
signals in enumeration order adding the missing reactions. -/
def add_signals (cfg : Config) (incident : Message) : List Event :=
  add_signals_loop cfg incident (own_reactions incident) signalOrder

/-- Crawl history limit (`limit = 50`). -/
def crawl_limit : Nat := 50

/-- Seconds slept after each processed message (`sleep = 2`). -/
def crawl_sleep : Nat := 2

/-- Loop body of `crawl_incidents` over the fetched history stream:
skip non-incidents, skip messages that already carry all signals,
otherwise add the signals and sleep before the next message. -/
def crawl_loop (cfg : Config) : List Message → List Event
  | [] => []
  | message :: rest =>
    if !is_incident cfg message then
      crawl_loop cfg rest
    else if has_signals cfg message then
      crawl_loop cfg rest
    else
      add_signals cfg message ++ (Event.sleep crawl_sleep :: crawl_loop cfg rest)

/-- `crawl_incidents`: fetch at most `crawl_limit` messages of the
channel history (newest first) and run the reconciliation loop on them.
`history` is the channel's full newest-first message list; the platform
returns its first `crawl_limit` entries. -/
def crawl_incidents (cfg : Config) (history : List Message) : List Event :=
  crawl_loop cfg (history.take crawl_limit)

/-- `on_message` listener: add the signals iff the message classifies as
an incident; no lock is acquired on this path. -/
def on_message (cfg : Config) (message : Message) : List Event :=
  if is_incident cfg message then add_signals cfg message else []

/-- Result of a platform API fetch as observed by `resolve_message`:
either the message, or any failure (not-found, deletion, transport). -/
inductive FetchResult where
  | ok (message : Message)
  | err (reason : String)
deriving DecidableEq, Repr

/-- Network operations issued by `resolve_message` (channel id and
message id of a `fetch_message` call). -/
inductive NetOp where
  | fetchMessage (channelId : Nat) (messageId : Nat)
deriving DecidableEq, Repr

/-- `resolve_message`: look the id up in the local cache; on a hit return
the cached message with no network call; on a miss fetch it from the
incidents channel via the API, converting any failure into `none`. -/
def resolve_message (cfg : Config) (cache : Nat → Option Message)
    (fetch : Nat → Nat → FetchResult) (message_id : Nat) :
    Option Message × List NetOp :=
  match cache message_id with
  | some message => (some message, [])
  | none =>
    match fetch cfg.incidentsChannel message_id with
    | .ok message => (some message, [NetOp.fetchMessage cfg.incidentsChannel message_id])
    | .err _ => (none, [NetOp.fetchMessage cfg.incidentsChannel message_id])

/-- Stimuli delivered to the cog by the host runtime: its one-time
construction (which schedules the crawl task over the current channel
history) and live new-message events. -/
inductive Stimulus where
  | construct (history : List Message)
  | newMessage (message : Message)

/-- Trace of platform calls the cog issues for each stimulus: the crawl
runs exactly on construction, and each live message event runs only the
`on_message` handler. -/
def component_step (cfg : Config) : Stimulus → List Event
  | .construct history => crawl_incidents cfg history
  | .newMessage message => on_message cfg message

/-- Effect of a successful add-reaction call on the message: the bot's
own reaction with that emoji is recorded on it. -/
def record_own_reaction (m : Message) (emoji : String) : Message :=
  { m with reactions := m.reactions ++ [{ emoji := emoji, me := true }] }

/-- Apply a trace of platform calls to a message: each add-reaction call
addressed to this message records the bot's own reaction. -/
def apply_events (m : Message) : List Event → Message
  | [] => m
  | Event.addReaction mid e :: rest =>
    if mid = m.id then apply_events (record_own_reaction m e) rest
    else apply_events m rest
  | _ :: rest => apply_events m rest

/-! Helper lemmas. -/

/-- The loop of `add_signals` emits, in order, one add-reaction call for
each signal of `l` whose emoji is missing from `existing_reacts`. -/
lemma add_signals_loop_eq (cfg : Config) (m : Message) (ex : Finset String) :
    ∀ l : List Signal, add_signals_loop cfg m ex l =
      (l.filter (fun s => decide (s.value cfg ∉ ex))).map
        (fun s => Event.addReaction m.id (s.value cfg)) := by
  intro l
  induction l with
  | nil => rfl
  | cons s rest ih =>
    simp only [add_signals_loop, List.filter_cons]
    by_cases h : s.value cfg ∈ ex
    · simp [h, ih]
    · simp [h, ih]

/-- Filter-map characterization of `add_signals`. -/
lemma add_signals_eq_filter_map (cfg : Config) (m : Message) :
    add_signals cfg m =
      (signalOrder.filter (fun s => decide (s.value cfg ∉ own_reactions m))).map
        (fun s => Event.addReaction m.id (s.value cfg)) :=
  add_signals_loop_eq cfg m (own_reactions m) signalOrder

/-- If every signal emoji of `l` is already present, the loop is silent. -/
lemma add_signals_loop_nil_of_all_mem (cfg : Config) (m : Message)
    (ex : Finset String) :
    ∀ l : List Signal, (∀ s ∈ l, s.value cfg ∈ ex) →
      add_signals_loop cfg m ex l = [] := by
  intro l
  induction l with
  | nil => intro _; rfl
  | cons s rest ih =>
    intro hall
    have hs : s.value cfg ∈ ex := hall s (by simp)
    simp only [add_signals_loop, if_pos hs]
    exact ih fun x hx => hall x (by simp [hx])

/-- `add_signals` only issues add-reaction calls, never lock operations
or sleeps. -/
lemma mem_add_signals_shape (cfg : Config) (m : Message) :
    ∀ ev ∈ add_signals cfg m, ∃ e, ev = Event.addReaction m.id e := by
  intro ev hev
  rw [add_signals_eq_filter_map] at hev
  obtain ⟨s, _, rfl⟩ := List.mem_map.mp hev
  exact ⟨s.value cfg, rfl⟩

/-- A missing signal emoji gives rise to its add-reaction call. -/
lemma addReaction_mem_add_signals (cfg : Config) (m : Message) (s : Signal)
    (hs : s ∈ signalOrder) (hmiss : s.value cfg ∉ own_reactions m) :
    Event.addReaction m.id (s.value cfg) ∈ add_signals cfg m := by
  rw [add_signals_eq_filter_map]
  exact List.mem_map.mpr ⟨s, List.mem_filter.mpr ⟨hs, by simpa using hmiss⟩, rfl⟩

/-- Recording the bot's own reaction inserts its emoji into
`own_reactions`. -/
lemma own_reactions_record (m : Message) (e : String) :
    own_reactions (record_own_reaction m e) = insert e (own_reactions m) := by
  simp [own_reactions, record_own_reaction, Finset.insert_eq, Finset.union_comm]

/-- Applying a trace never changes the message id. -/
lemma apply_events_id (t : List Event) :
    ∀ m : Message, (apply_events m t).id = m.id := by
  induction t with
  | nil => intro m; rfl
  | cons ev rest ih =>
    intro m
    cases ev with
    | addReaction mid e =>
      by_cases h : mid = m.id
      · simp only [apply_events, if_pos h]
        rw [ih (record_own_reaction m e)]
        rfl
      · simp only [apply_events, if_neg h]
        exact ih m
    | sleep s => exact ih m
    | acquireEventLock => exact ih m

/-- Applying a trace only ever grows the bot's own reaction set. -/
lemma own_reactions_apply_mono (t : List Event) :
    ∀ m : Message, own_reactions m ⊆ own_reactions (apply_events m t) := by
  induction t with
  | nil => intro m; exact Finset.Subset.refl _
  | cons ev rest ih =>
    intro m
    cases ev with
    | addReaction mid e =>
      by_cases h : mid = m.id
      · simp only [apply_events, if_pos h]
        refine Finset.Subset.trans ?_ (ih (record_own_reaction m e))
        rw [own_reactions_record]
        exact Finset.subset_insert _ _
      · simp only [apply_events, if_neg h]
        exact ih m
    | sleep s => exact ih m
    | acquireEventLock => exact ih m

/-- An add-reaction call addressed to the message in a trace lands its
emoji in the bot's own reaction set after the trace is applied. -/
lemma mem_own_reactions_apply (t : List Event) :
    ∀ (m : Message) (e : String), Event.addReaction m.id e ∈ t →
      e ∈ own_reactions (apply_events m t) := by
  induction t with
  | nil => intro m e h; exact absurd h (List.not_mem_nil _)
  | cons ev rest ih =>
    intro m e h
    rcases List.mem_cons.mp h with heq | htail
    · rw [← heq]
      simp only [apply_events, if_pos rfl]
      refine own_reactions_apply_mono rest (record_own_reaction m e) ?_
      rw [own_reactions_record]
      exact Finset.mem_insert_self _ _
    · cases ev with
      | addReaction mid e₀ =>
        by_cases hmid : mid = m.id
        · simp only [apply_events, if_pos hmid]
          have hid : (record_own_reaction m e₀).id = m.id := rfl
          exact ih (record_own_reaction m e₀) e (by rw [hid]; exact htail)
        · simp only [apply_events, if_neg hmid]
          exact ih m e htail
      | sleep s => exact ih m e htail
      | acquireEventLock => exact ih m e htail

/-- With the three configured emoji pairwise distinct (as the production
configuration has them), `Signal.value` is injective. -/
lemma value_injective (cfg : Config)
    (h1 : cfg.incidentActioned ≠ cfg.incidentUnactioned)
    (h2 : cfg.incidentActioned ≠ cfg.incidentInvestigating)
    (h3 : cfg.incidentUnactioned ≠ cfg.incidentInvestigating) :
    Function.Injective (Signal.value cfg) := by
  intro a b hab
  cases a <;> cases b <;> simp_all [Signal.value]

/-- The crawl loop processes exactly the unpinned incident messages that
are still missing a signal, in stream order, sleeping after each. -/
lemma crawl_loop_eq (cfg : Config) :
    ∀ l : List Message, crawl_loop cfg l =
      (l.filter (fun m => is_incident cfg m && !has_signals cfg m)).flatMap
        (fun m => add_signals cfg m ++ [Event.sleep crawl_sleep]) := by
  intro l
  induction l with
  | nil => rfl
  | cons m rest ih =>
    simp only [crawl_loop, List.filter_cons]
    by_cases h1 : is_incident cfg m
    · by_cases h2 : has_signals cfg m
      · simp [h1, h2, ih]
      · simp [h1, h2, ih]
    · simp [h1, ih]

/-- `add_signals_loop` depends on the configuration only through the
signal emoji values. -/
lemma add_signals_loop_congr (cfg₁ cfg₂ : Config) (m : Message)
    (ex : Finset String) (hv : Signal.value cfg₁ = Signal.value cfg₂) :
    ∀ l : List Signal,
      add_signals_loop cfg₁ m ex l = add_signals_loop cfg₂ m ex l := by
  intro l
  induction l with
  | nil => rfl
  | cons s rest ih => simp only [add_signals_loop, hv, ih]

/-! Claim theorems. -/

/-- C1: `is_incident` returns true iff the message is in the incidents
channel, its author is not a bot, its content does not start with the
hash character, and it is not pinned; and for a qualifying message,
flipping any single one of the four conditions while holding the other
three makes the result false. -/
theorem is_incident_iff_and_flips (cfg : Config) (m : Message) :
    (is_incident cfg m = true ↔
      (m.channelId = cfg.incidentsChannel ∧ m.authorBot = false ∧
        starts_with_hash m.content = false ∧ m.pinned = false))
    ∧ (is_incident cfg m = true →
        (∀ c, c ≠ cfg.incidentsChannel →
          is_incident cfg { m with channelId := c } = false)
        ∧ is_incident cfg { m with authorBot := true } = false
        ∧ (∀ s, starts_with_hash s = true →
            is_incident cfg { m with content := s } = false)
        ∧ is_incident cfg { m with pinned := true } = false) := by
  constructor
  · simp [is_incident, and_assoc]
  · intro h
    refine ⟨fun c hc => ?_, ?_, fun s hs => ?_, ?_⟩ <;> simp_all [is_incident]

/-- Witness for C1 at a concrete configuration and message. -/
theorem is_incident_iff_and_flips_witness :
    is_incident ⟨1, 2, 3, 4, "A", "B", "C"⟩
        ⟨10, 1, false, "report", false, []⟩ = true
    ∧ is_incident ⟨1, 2, 3, 4, "A", "B", "C"⟩
        ⟨10, 1, false, "report", true, []⟩ = false := by
  have h := is_incident_iff_and_flips ⟨1, 2, 3, 4, "A", "B", "C"⟩
    ⟨10, 1, false, "report", false, []⟩
  have hq : is_incident ⟨1, 2, 3, 4, "A", "B", "C"⟩
      ⟨10, 1, false, "report", false, []⟩ = true :=
    h.1.mpr ⟨rfl, rfl, by decide, rfl⟩
  exact ⟨hq, (h.2 hq).2.2.2⟩

/-- C2: `own_reactions` is exactly the set of emoji of the reactions on
the message carrying the bot-own-identity flag, and `has_signals` holds
iff that set includes all of `ALLOWED_EMOJI`; both are pure functions of
the message. -/
theorem own_reactions_has_signals_spec (cfg : Config) (m : Message) :
    (∀ e, e ∈ own_reactions m ↔ ∃ r ∈ m.reactions, r.me = true ∧ r.emoji = e)
    ∧ (has_signals cfg m = true ↔ ALLOWED_EMOJI cfg ⊆ own_reactions m) := by
  constructor
  · intro e
    simp only [own_reactions, List.mem_toFinset, List.mem_map, List.mem_filter]
    constructor
    · rintro ⟨r, ⟨hr, hme⟩, hemoji⟩
      exact ⟨r, hr, by simpa using hme, hemoji⟩
    · rintro ⟨r, hr, hme, hemoji⟩
      exact ⟨r, ⟨hr, by simpa using hme⟩, hemoji⟩
  · simp [has_signals, Finset.sdiff_eq_empty_iff_subset]

/-- C7: the live message handler runs `add_signals` exactly on the
messages classified as incidents, and does nothing otherwise. -/
theorem on_message_spec (cfg : Config) (m : Message) :
    (is_incident cfg m = true → on_message cfg m = add_signals cfg m)
    ∧ (is_incident cfg m = false → on_message cfg m = []) := by
  constructor <;> intro h <;> simp [on_message, h]

/-- Witness for C7: a qualifying and a non-qualifying concrete message. -/
theorem on_message_spec_witness :
    on_message ⟨1, 2, 3, 4, "A", "B", "C"⟩ ⟨10, 1, false, "report", false, []⟩
      = add_signals ⟨1, 2, 3, 4, "A", "B", "C"⟩ ⟨10, 1, false, "report", false, []⟩
    ∧ on_message ⟨1, 2, 3, 4, "A", "B", "C"⟩ ⟨11, 9, false, "report", false, []⟩
      = [] := by
  refine ⟨(on_message_spec ⟨1, 2, 3, 4, "A", "B", "C"⟩
    ⟨10, 1, false, "report", false, []⟩).1 (by decide),
    (on_message_spec ⟨1, 2, 3, 4, "A", "B", "C"⟩
    ⟨11, 9, false, "report", false, []⟩).2 (by decide)⟩

/-- C8: the live message handler path never acquires the event lock:
no trace it produces contains a lock-acquisition step. -/
theorem on_message_never_locks (cfg : Config) (m : Message) :
    Event.acquireEventLock ∉ on_message cfg m := by
  intro hmem
  unfold on_message at hmem
  split at hmem
  · obtain ⟨e, he⟩ := mem_add_signals_shape cfg m _ hmem
    exact Event.noConfusion he
  · exact absurd hmem (List.not_mem_nil _)

/-- C10: a message with empty content, in the incidents channel, from a
non-bot author and not pinned, is classified as an incident, and when
the bot has no reactions on it yet it receives all three signal
reactions, in order. -/
theorem empty_content_is_incident (cfg : Config) (m : Message)
    (hch : m.channelId = cfg.incidentsChannel) (hbot : m.authorBot = false)
    (hpin : m.pinned = false) (hcontent : m.content = "") :
    is_incident cfg m = true
    ∧ (own_reactions m = ∅ →
        add_signals cfg m =
          [Event.addReaction m.id cfg.incidentActioned,
            Event.addReaction m.id cfg.incidentUnactioned,
            Event.addReaction m.id cfg.incidentInvestigating]) := by
  constructor
  · simp [is_incident, hch, hbot, hpin, hcontent, starts_with_hash]
  · intro hno
    simp [add_signals, hno, signalOrder, add_signals_loop, Signal.value]

/-- Witness for C10: an attachment-only (empty text) concrete message. -/
theorem empty_content_is_incident_witness :
    is_incident ⟨1, 2, 3, 4, "A", "B", "C"⟩ ⟨10, 1, false, "", false, []⟩ = true
    ∧ add_signals ⟨1, 2, 3, 4, "A", "B", "C"⟩ ⟨10, 1, false, "", false, []⟩ =
        [Event.addReaction 10 "A", Event.addReaction 10 "B",
          Event.addReaction 10 "C"] := by
  have h := empty_content_is_incident ⟨1, 2, 3, 4, "A", "B", "C"⟩
    ⟨10, 1, false, "", false, []⟩ rfl rfl rfl rfl
  exact ⟨h.1, h.2 (by decide)⟩

/-- C3: `add_signals` walks the three signals in the fixed enumeration
order Actioned, NotActioned, Investigating against the reaction set
computed once up front: its trace is the ordered map over the signals
whose emoji is missing from that set, skipping the present ones and
issuing exactly one sequential add-reaction call per missing one. -/
theorem add_signals_order_spec (cfg : Config) (m : Message) :
    signalOrder = [Signal.ACTIONED, Signal.NOT_ACTIONED, Signal.INVESTIGATING]
    ∧ add_signals cfg m =
        (signalOrder.filter (fun s => decide (s.value cfg ∉ own_reactions m))).map
          (fun s => Event.addReaction m.id (s.value cfg))
    ∧ (∀ s ∈ signalOrder, s.value cfg ∈ own_reactions m →
        Event.addReaction m.id (s.value cfg) ∉ add_signals cfg m)
    ∧ (∀ s ∈ signalOrder, s.value cfg ∉ own_reactions m →
        Event.addReaction m.id (s.value cfg) ∈ add_signals cfg m) := by
  refine ⟨rfl, add_signals_eq_filter_map cfg m, ?_, ?_⟩
  · intro s _ hmem hcontra
    rw [add_signals_eq_filter_map] at hcontra
    obtain ⟨s₂, hs₂, heq⟩ := List.mem_map.mp hcontra
    have hv : s₂.value cfg = s.value cfg := by simpa using heq
    have hmiss := (List.mem_filter.mp hs₂).2
    simp only [decide_eq_true_eq] at hmiss
    exact hmiss (hv ▸ hmem)
  · exact fun s hs hmiss => addReaction_mem_add_signals cfg m s hs hmiss

/-- Witness for C3: with only the Actioned emoji present, its call is
skipped while the NotActioned call is issued. -/
theorem add_signals_order_spec_witness :
    Event.addReaction 10 "A" ∉
      add_signals ⟨1, 2, 3, 4, "A", "B", "C"⟩
        ⟨10, 1, false, "r", false, [⟨"A", true⟩]⟩
    ∧ Event.addReaction 10 "B" ∈
      add_signals ⟨1, 2, 3, 4, "A", "B", "C"⟩
        ⟨10, 1, false, "r", false, [⟨"A", true⟩]⟩ := by
  have h := add_signals_order_spec ⟨1, 2, 3, 4, "A", "B", "C"⟩
    ⟨10, 1, false, "r", false, [⟨"A", true⟩]⟩
  exact ⟨h.2.2.1 Signal.ACTIONED (by decide) (by decide),
    h.2.2.2 Signal.NOT_ACTIONED (by decide) (by decide)⟩

/-- C4: with the three configured emoji pairwise distinct, a run of
`add_signals` issues each add-reaction call at most once, and running
`add_signals` again on the message after its own calls have recorded
their reactions issues no call at all. -/
theorem add_signals_idempotent (cfg : Config) (m : Message)
    (h1 : cfg.incidentActioned ≠ cfg.incidentUnactioned)
    (h2 : cfg.incidentActioned ≠ cfg.incidentInvestigating)
    (h3 : cfg.incidentUnactioned ≠ cfg.incidentInvestigating) :
    (∀ e, (add_signals cfg m).count (Event.addReaction m.id e) ≤ 1)
    ∧ add_signals cfg (apply_events m (add_signals cfg m)) = [] := by
  constructor
  · have hnd : (add_signals cfg m).Nodup := by
      rw [add_signals_eq_filter_map]
      refine List.Nodup.map ?_ (List.Nodup.filter _ ?_)
      · intro a b hab
        have hv : a.value cfg = b.value cfg := by simpa using hab
        exact value_injective cfg h1 h2 h3 hv
      · decide
    intro e
    exact List.nodup_iff_count_le_one.mp hnd _
  · have hrfl : add_signals cfg (apply_events m (add_signals cfg m)) =
        add_signals_loop cfg (apply_events m (add_signals cfg m))
          (own_reactions (apply_events m (add_signals cfg m))) signalOrder := rfl
    rw [hrfl]
    apply add_signals_loop_nil_of_all_mem
    intro s hs
    by_cases hmem : s.value cfg ∈ own_reactions m
    · exact own_reactions_apply_mono _ m hmem
    · exact mem_own_reactions_apply _ m (s.value cfg)
        (addReaction_mem_add_signals cfg m s hs hmem)

/-- Witness for C4 at a concrete configuration and a message with no
reactions yet. -/
theorem add_signals_idempotent_witness :
    (add_signals ⟨1, 2, 3, 4, "A", "B", "C"⟩
        ⟨10, 1, false, "r", false, []⟩).count (Event.addReaction 10 "A") ≤ 1
    ∧ add_signals ⟨1, 2, 3, 4, "A", "B", "C"⟩
        (apply_events ⟨10, 1, false, "r", false, []⟩
          (add_signals ⟨1, 2, 3, 4, "A", "B", "C"⟩
            ⟨10, 1, false, "r", false, []⟩)) = [] := by
  have h := add_signals_idempotent ⟨1, 2, 3, 4, "A", "B", "C"⟩
    ⟨10, 1, false, "r", false, []⟩ (by decide) (by decide) (by decide)
  exact ⟨h.1 ("A"), h.2⟩

/-- C5: the crawl considers at most the 50 newest messages of the
channel history; it skips non-incidents and messages that already carry
all the signals without any delay, and for every other message it runs
`add_signals` followed by the fixed 2-second sleep; the crawl is the
trace of the one-time construction stimulus, while live message stimuli
run only the message handler. -/
theorem crawl_incidents_spec (cfg : Config) (history : List Message) :
    crawl_limit = 50
    ∧ crawl_sleep = 2
    ∧ crawl_incidents cfg history =
        ((history.take crawl_limit).filter
          (fun m => is_incident cfg m && !has_signals cfg m)).flatMap
          (fun m => add_signals cfg m ++ [Event.sleep crawl_sleep])
    ∧ component_step cfg (Stimulus.construct history) = crawl_incidents cfg history
    ∧ (∀ m, component_step cfg (Stimulus.newMessage m) = on_message cfg m) :=
  ⟨rfl, rfl, crawl_loop_eq cfg (history.take crawl_limit), rfl, fun _ => rfl⟩

/-- C6: `resolve_message` answers from the local cache without any
network call on a cache hit; on a miss it issues one fetch, returning
the message on success and converting any fetch failure into `none`
instead of propagating it. -/
theorem resolve_message_spec (cfg : Config) (cache : Nat → Option Message)
    (fetch : Nat → Nat → FetchResult) (mid : Nat) :
    (∀ m, cache mid = some m →
      resolve_message cfg cache fetch mid = (some m, []))
    ∧ (cache mid = none →
        (∀ m, fetch cfg.incidentsChannel mid = FetchResult.ok m →
          resolve_message cfg cache fetch mid =
            (some m, [NetOp.fetchMessage cfg.incidentsChannel mid]))
        ∧ (∀ e, fetch cfg.incidentsChannel mid = FetchResult.err e →
          resolve_message cfg cache fetch mid =
            (none, [NetOp.fetchMessage cfg.incidentsChannel mid]))) := by
  refine ⟨fun m hm => ?_, fun hnone => ⟨fun m hm => ?_, fun e he => ?_⟩⟩ <;>
    simp [resolve_message, *]

/-- Witness for C6: a concrete cache hit with no fetch, and a concrete
failing fetch converted into an absent result. -/
theorem resolve_message_spec_witness :
    resolve_message ⟨1, 2, 3, 4, "A", "B", "C"⟩
      (fun _ => some ⟨5, 1, false, "r", false, []⟩)
      (fun _ _ => FetchResult.err ("gone")) 5
      = (some ⟨5, 1, false, "r", false, []⟩, [])
    ∧ resolve_message ⟨1, 2, 3, 4, "A", "B", "C"⟩ (fun _ => none)
      (fun _ _ => FetchResult.err ("gone")) 6
      = (none, [NetOp.fetchMessage 1 6]) := by
  refine ⟨(resolve_message_spec ⟨1, 2, 3, 4, "A", "B", "C"⟩
      (fun _ => some ⟨5, 1, false, "r", false, []⟩)
      (fun _ _ => FetchResult.err ("gone")) 5).1 _ rfl, ?_⟩
  exact ((resolve_message_spec ⟨1, 2, 3, 4, "A", "B", "C"⟩ (fun _ => none)
    (fun _ _ => FetchResult.err ("gone")) 6).2 rfl).2 ("gone") rfl

/-- C9: no operation depends on the allowed-roles set: two
configurations agreeing on the incidents channel and the three emoji
(but free to differ on every role id) give identical results and
identical platform traces for every operation of the component. -/
theorem roles_agnostic (cfg₁ cfg₂ : Config)
    (hch : cfg₁.incidentsChannel = cfg₂.incidentsChannel)
    (ha : cfg₁.incidentActioned = cfg₂.incidentActioned)
    (hu : cfg₁.incidentUnactioned = cfg₂.incidentUnactioned)
    (hi : cfg₁.incidentInvestigating = cfg₂.incidentInvestigating) :
    (∀ m, is_incident cfg₁ m = is_incident cfg₂ m)
    ∧ ALLOWED_EMOJI cfg₁ = ALLOWED_EMOJI cfg₂
    ∧ (∀ m, has_signals cfg₁ m = has_signals cfg₂ m)
    ∧ (∀ m, add_signals cfg₁ m = add_signals cfg₂ m)
    ∧ (∀ h, crawl_incidents cfg₁ h = crawl_incidents cfg₂ h)
    ∧ (∀ m, on_message cfg₁ m = on_message cfg₂ m)
    ∧ (∀ cache fetch mid,
        resolve_message cfg₁ cache fetch mid = resolve_message cfg₂ cache fetch mid)
    ∧ (∀ st, component_step cfg₁ st = component_step cfg₂ st) := by
  have hv : Signal.value cfg₁ = Signal.value cfg₂ := by
    funext s
    cases s <;> simp [Signal.value, ha, hu, hi]
  have hinc : ∀ m, is_incident cfg₁ m = is_incident cfg₂ m := by
    intro m
    simp [is_incident, hch]
  have hAE : ALLOWED_EMOJI cfg₁ = ALLOWED_EMOJI cfg₂ := by
    simp [ALLOWED_EMOJI, hv]
  have hhs : ∀ m, has_signals cfg₁ m = has_signals cfg₂ m := by
    intro m
    simp [has_signals, hAE]
  have hadd : ∀ m, add_signals cfg₁ m = add_signals cfg₂ m := fun m =>
    add_signals_loop_congr cfg₁ cfg₂ m (own_reactions m) hv signalOrder
  have hcl : ∀ l, crawl_loop cfg₁ l = crawl_loop cfg₂ l := by
    intro l
    induction l with
    | nil => rfl
    | cons m rest ih => simp only [crawl_loop, hinc m, hhs m, hadd m, ih]
  have hcrawl : ∀ h, crawl_incidents cfg₁ h = crawl_incidents cfg₂ h :=
    fun h => hcl (h.take crawl_limit)
  have hom : ∀ m, on_message cfg₁ m = on_message cfg₂ m := by
    intro m
    simp only [on_message, hinc m, hadd m]
  have hres : ∀ cache fetch mid,
      resolve_message cfg₁ cache fetch mid = resolve_message cfg₂ cache fetch mid := by
    intro cache fetch mid
    simp only [resolve_message, hch]
  refine ⟨hinc, hAE, hhs, hadd, hcrawl, hom, hres, fun st => ?_⟩
  cases st with
  | construct h => exact hcrawl h
  | newMessage m => exact hom m

/-- Witness for C9: two configurations with different role ids produce
the same classification result. -/
theorem roles_agnostic_witness :
    ALLOWED_ROLES ⟨1, 2, 3, 4, "A", "B", "C"⟩ ≠
      ALLOWED_ROLES ⟨1, 7, 8, 9, "A", "B", "C"⟩
    ∧ is_incident ⟨1, 2, 3, 4, "A", "B", "C"⟩ ⟨10, 1, false, "r", false, []⟩ =
        is_incident ⟨1, 7, 8, 9, "A", "B", "C"⟩ ⟨10, 1, false, "r", false, []⟩ := by
  refine ⟨by decide, ?_⟩
  exact (roles_agnostic ⟨1, 2, 3, 4, "A", "B", "C"⟩ ⟨1, 7, 8, 9, "A", "B", "C"⟩
    rfl rfl rfl rfl).1 ⟨10, 1, false, "r", false, []⟩

end Incidents
